import Mathlib

/-!
Shallow embedding of `src/server.py` — the sensor-calibration, history,
detection-extraction and decision-fusion engine of the Fruit & Gas Cloud API.

Modelling conventions:
* Python floats are modelled as exact rationals (`ℚ`); decimal literals of the
  source (`3.3`, `116.6021`, `1e-6`, …) denote the corresponding exact rationals.
* `datetime.utcnow().isoformat()` timestamps are modelled as integers (`ℤ`);
  lexicographic order on equal-format ISO strings coincides with chronological
  order, so the SQL string comparison `ts >= ?` becomes `≤` on `ℤ`.
  One day is `86400` (the unit is irrelevant to every statement below).
* Fallible Python code (`return {"error": ...}`) is an `Except String` result.
* `ratio ** b` is real exponentiation with a non-integer exponent, which has no
  exact rational value; the embedding abstracts it as a parameter
  `pw : ℚ → ℚ → ℚ` (`pw ratio b` stands for `ratio ** b`), so the theorems
  below hold for every possible value of the power.
* `round(x, n)` (Python round-half-to-even to `n` decimals) is `pyround`.
-/

namespace Server

/-- Python `x or d` for an optional float: `None` and `0.0` are falsy
(used by the source for `g.vref or 3.3` and `g.rl or 10000.0`). -/
def pyOrQ (x : Option ℚ) (d : ℚ) : ℚ :=
  match x with
  | none => d
  | some v => if v = 0 then d else v

/-- Python `x or d` for an optional int: `None` and `0` are falsy
(used by the source for `g.adc_max or 4095`). -/
def pyOrZ (x : Option ℤ) (d : ℤ) : ℤ :=
  match x with
  | none => d
  | some v => if v = 0 then d else v

/-- Round to the nearest integer, ties to the even integer
(Python `round` on floats, modelled exactly on `ℚ`). -/
def roundHalfEven (x : ℚ) : ℤ :=
  if x - Int.floor x < 1/2 then Int.floor x
  else if 1/2 < x - Int.floor x then Int.floor x + 1
  else if Int.floor x % 2 = 0 then Int.floor x else Int.floor x + 1

/-- Python `round(x, d)`: round to `d` decimal places, ties to even. -/
def pyround (x : ℚ) (d : ℕ) : ℚ :=
  (roundHalfEven (x * 10 ^ d) : ℚ) / 10 ^ d

/-- Python `needle in hay` for strings, on lists of characters. -/
def containsSubstring (needle : List Char) : List Char → Bool
  | [] => needle.isEmpty
  | c :: t => needle.isPrefixOf (c :: t) || containsSubstring needle t

/-- Model of `str.lower()` (character-wise lowering, as on the ASCII labels involved). -/
def lowerList (l : List Char) : List Char := l.map Char.toLower

-- ------------------ Vision helpers (extract_top_detection) ------------------

/-- One entry of the detector's `predictions` list: the `"class"` and
`"confidence"` keys may each be absent. -/
structure Prediction where
  cls : Option String
  confidence : Option ℚ
deriving DecidableEq

/-- The raw detector response: the `"predictions"` key may be absent
(this also covers `resp_obj` being an empty — falsy — dict). -/
structure DetectorResponse where
  predictions : Option (List Prediction)
deriving DecidableEq

/-- The value returned by `extract_top_detection`:
`{"label": str, "confidence": float}`. -/
structure DetectionOut where
  label : String
  confidence : ℚ
deriving DecidableEq

/-- Source: `float(p.get("confidence", 0.0))`. -/
def confOf (p : Prediction) : ℚ := p.confidence.getD 0

/-- Python `max(iterable, key=f)`: scan keeping the current best, replacing it
only on a strictly larger key — so ties keep the first occurrence. -/
def pymaxBy (f : Prediction → ℚ) : Prediction → List Prediction → Prediction
  | best, [] => best
  | best, p :: rest => pymaxBy f (if f p > f best then p else best) rest

/-- Function `extract_top_detection` from `src/server.py` (lines 90–105).  `resp_obj`
being `None` (or a falsy empty dict), a missing `"predictions"` key, and an
empty list all yield `None`; the `isinstance(preds, list)` check is vacuous in
the typed embedding. -/
def extract_top_detection : Option DetectorResponse → Option DetectionOut
  | none => none
  | some r =>
    match r.predictions with
    | none => none
    | some [] => none
    | some (p :: ps) =>
      let top := pymaxBy confOf p ps
      some ⟨top.cls.getD "?", pyround (confOf top * 100) 1⟩

-- ------------------ Gas model ------------------

/-- The `GasReading` pydantic input model (`src/server.py` lines 151–158).
The pydantic defaults (`adc_max = 4095`, `vref = 3.3`, `rl = 10000.0`) are not
baked in here because a client may send explicit `null`s; the handler's
`or`-defaults (`effVref`, `effRl`, `effAdcMax`) subsume them either way. -/
structure GasReading where
  vrl : Option ℚ
  adc : Option ℤ
  adc_max : Option ℤ
  vref : Option ℚ
  rl : Option ℚ
  rs : Option ℚ
  r0 : Option ℚ
deriving DecidableEq

/-- Source: `VREF = float(g.vref or 3.3)`. -/
def effVref (g : GasReading) : ℚ := pyOrQ g.vref 3.3

/-- Source: `RL = float(g.rl or 10000.0)`. -/
def effRl (g : GasReading) : ℚ := pyOrQ g.rl 10000

/-- Source: `adc_max = int(g.adc_max or 4095)` — never `0`. -/
def effAdcMax (g : GasReading) : ℤ := pyOrZ g.adc_max 4095

/-- The divider voltage after the handler's ADC fallback:
`if g.vrl is None and g.adc is not None: g.vrl = (adc / adc_max) * VREF`. -/
def vrlResolved (g : GasReading) : Option ℚ :=
  match g.vrl with
  | some v => some v
  | none =>
    match g.adc with
    | some a => some (((a : ℚ) / (effAdcMax g : ℚ)) * effVref g)
    | none => none

/-- The divisor in the sensor-resistance formula: `max(0.001, float(g.vrl))`. -/
def rsDenom (vrl : ℚ) : ℚ := max (1/1000) vrl

/-- Source: `((VREF - float(g.vrl)) * RL) / max(0.001, float(g.vrl))`. -/
def rsOf (vref rl vrl : ℚ) : ℚ := ((vref - vrl) * rl) / rsDenom vrl

/-- The sensor resistance the handler ends up using:
`float(g.rs)` if supplied, else the voltage-divider formula on the resolved
`vrl`; `none` exactly when the request is rejected. -/
def rsUsed (g : GasReading) : Option ℚ :=
  match g.rs, vrlResolved g with
  | some r, _ => some r
  | none, some v => some (rsOf (effVref g) (effRl g) v)
  | none, none => none

/-- The baseline divisor in the ratio: `max(1e-6, r0)`. -/
def ratioDenom (r0 : ℚ) : ℚ := max (1/1000000) r0

/-- Source: `ratio = rs / max(1e-6, r0)`. -/
def ratioVal (rs r0 : ℚ) : ℚ := rs / ratioDenom r0

/-- Function `_ppm_from_ratio` (`src/server.py` lines 160–163).  `pw ratio b` stands for
the float power `ratio ** b` (abstracted, see the module docstring); the
`ratio is None` guard of the source is vacuous here since every call site
passes an actual number, and the power is only taken when `ratio > 0`. -/
def _ppm_from_ratio (pw : ℚ → ℚ → ℚ) (ratio a b : ℚ) : ℚ :=
  if ratio ≤ 0 then 0 else max 0 (a * pw ratio b)

/-- The fixed table of empirical power-law curves `(a, b)`, in the order
co2, nh3, benzene, alcohol. -/
def gasCurves : List (ℚ × ℚ) :=
  [(116.6021, -2.7690), (102.6940, -2.4880), (76.63, -2.1680), (77.255, -3.18)]

/-- The `"ppm"` mapping.  Fields are optional because `_summarize` reads them
with `.get` from a dict that may lack them; the `/gas` handler itself always
fills all four. -/
structure Ppm where
  co2 : Option ℚ
  nh3 : Option ℚ
  benzene : Option ℚ
  alcohol : Option ℚ
deriving DecidableEq

/-- The `"ppm"` dict computed by the `/gas` handler (lines 190–195). -/
def mkPpm (pw : ℚ → ℚ → ℚ) (ratio : ℚ) : Ppm where
  co2 := some (pyround (_ppm_from_ratio pw ratio 116.6021 (-2.7690)) 1)
  nh3 := some (pyround (_ppm_from_ratio pw ratio 102.6940 (-2.4880)) 1)
  benzene := some (pyround (_ppm_from_ratio pw ratio 76.63 (-2.1680)) 1)
  alcohol := some (pyround (_ppm_from_ratio pw ratio 77.255 (-3.18)) 1)

/-- The `data` dict built by the `/gas` handler (lines 185–196). -/
structure GasData where
  vrl : Option ℚ
  rs : ℚ
  r0 : ℚ
  ratio : ℚ
  ppm : Ppm
deriving DecidableEq

/-- Lines 181–196 of the handler, given the resolved voltage and resistance:
`r0 = float(g.r0) if g.r0 is not None else rs`, `ratio = rs / max(1e-6, r0)`,
then the rounded `data` record. -/
def mkGasData (pw : ℚ → ℚ → ℚ) (vrl : Option ℚ) (rs : ℚ) (r0opt : Option ℚ) :
    GasData :=
  let r0 := r0opt.getD rs
  let ratio := ratioVal rs r0
  { vrl := vrl.map (fun v => pyround v 3)
    rs := pyround rs 1
    r0 := pyround r0 1
    ratio := pyround ratio 3
    ppm := mkPpm pw ratio }

/-- The pure computation of the `/gas` handler (`src/server.py` lines 165–196):
resolve `vrl` from the ADC if needed, reject when neither a voltage nor a
resistance is available, otherwise build the calibrated `data` record. -/
def gasCompute (pw : ℚ → ℚ → ℚ) (g : GasReading) : Except String GasData :=
  match g.rs, vrlResolved g with
  | some r, v => .ok (mkGasData pw v r g.r0)
  | none, some v => .ok (mkGasData pw (some v) (rsOf (effVref g) (effRl g) v) g.r0)
  | none, none => .error "Send at least one of: vrl, adc, or rs."

-- ------------------ SQLite gas history (ReadingStore) ------------------

/-- One persisted row of `gas_readings` (the auto-increment `id` is the list
position: rows are kept in insertion — rowid — order). -/
structure Row where
  ts : ℤ
  co2 : Option ℚ
  nh3 : Option ℚ
  benzene : Option ℚ
  alcohol : Option ℚ
deriving DecidableEq

/-- Function `save_reading` (lines 58–68): `INSERT` appends one row stamped `now`. -/
def save_reading (store : List Row) (now : ℤ) (p : Ppm) : List Row :=
  store ++ [⟨now, p.co2, p.nh3, p.benzene, p.alcohol⟩]

/-- Comparison used by `ORDER BY ts ASC`. -/
def tsle (a b : Row) : Prop := a.ts ≤ b.ts

instance : DecidableRel tsle := fun a b => Int.decLe a.ts b.ts

instance : IsTotal Row tsle := ⟨fun a b => Int.le_total a.ts b.ts⟩

instance : IsTrans Row tsle := ⟨fun _ _ _ hab hbc => le_trans hab hbc⟩

/-- Query `SELECT … WHERE ts >= cutoff ORDER BY ts ASC` (lines 74–79): the index
scan on `idx_gas_ts` returns the qualifying rows in `(ts, rowid)` order,
i.e. the insertion-ordered rows filtered and then stably sorted by `ts`. -/
def load_history_since (store : List Row) (cutoff : ℤ) : List Row :=
  List.insertionSort tsle (store.filter (fun row => decide (cutoff ≤ row.ts)))

/-- One day of the `timedelta(days=…)` cutoff arithmetic. -/
def oneDay : ℤ := 86400

/-- Function `load_history_last_days` (lines 70–85):
`cutoff = utcnow() - timedelta(days=days)`, then the windowed query. -/
def load_history_last_days (store : List Row) (now : ℤ) (days : ℤ) : List Row :=
  load_history_since store (now - days * oneDay)

-- ------------------ In-memory cache and the /gas endpoint ------------------

/-- The `LAST` in-memory cache (lines 34–39).  `vision` holds the raw detector
response cached by `/predict`; `gas` holds the `data` record of `/gas`. -/
structure LatestState where
  vision : Option DetectorResponse
  vision_updated : Option ℤ
  gas : Option GasData
  gas_updated : Option ℤ
deriving DecidableEq

/-- The initial value of `LAST` at process start: every field `None`. -/
def LAST : LatestState := ⟨none, none, none, none⟩

/-- The mutable state the `/gas` endpoint touches: the `LAST` cache and the
`gas_readings` table. -/
structure ServerState where
  last : LatestState
  store : List Row
deriving DecidableEq

/-- The `/gas` endpoint (lines 165–201) as a state transition: on success it
overwrites `LAST["gas"]`/`LAST["gas_updated"]` and appends to the store; on
the `InvalidInput` rejection it returns the error dict and touches nothing. -/
def gasEndpoint (pw : ℚ → ℚ → ℚ) (st : ServerState) (now : ℤ) (g : GasReading) :
    ServerState × Except String GasData :=
  match gasCompute pw g with
  | .error e => (st, .error e)
  | .ok d =>
    (⟨{ st.last with gas := some d, gas_updated := some now },
      save_reading st.store now d.ppm⟩, .ok d)

-- ------------------ Summary (DecisionFusion) ------------------

/-- The `gas_flags` record of the summary. -/
structure Flags where
  co2_high : Bool
  nh3_high : Bool
  voc_high : Bool
deriving DecidableEq

/-- The record returned by `_summarize`. -/
structure Summary where
  vision : Option DetectionOut
  gas_ppm : Ppm
  gas_flags : Flags
  decision : String
deriving DecidableEq

/-- Source: `co2_hi = (co2 is not None) and (co2 >= 2000)`. -/
def co2Hi (co2 : Option ℚ) : Bool :=
  match co2 with
  | none => false
  | some v => decide (2000 ≤ v)

/-- Source: `nh3_hi = (nh3 is not None) and (nh3 >= 15)`. -/
def nh3Hi (nh3 : Option ℚ) : Bool :=
  match nh3 with
  | none => false
  | some v => decide (15 ≤ v)

/-- Source: `voc_hi = (benz or 0) >= 5 or (alco or 0) >= 10`. -/
def vocHi (benz alco : Option ℚ) : Bool :=
  decide (5 ≤ pyOrQ benz 0) || decide (10 ≤ pyOrQ alco 0)

/-- Source: `model_rotten = bool(pred and isinstance(pred.get("label"), str) and
("rotten" in pred["label"].lower()))` — the `isinstance` test is vacuous in
the typed embedding, where the label is always a string. -/
def rottenOf (pred : Option DetectionOut) : Bool :=
  match pred with
  | none => false
  | some d => containsSubstring "rotten".toList (lowerList d.label.toList)

/-- Source: `gas = (last.get("gas") or {}).get("ppm", {})`: the ppm mapping of the
cached gas reading, or an all-absent mapping when none is cached. -/
def summaryPpm (last : LatestState) : Ppm :=
  match last.gas with
  | none => ⟨none, none, none, none⟩
  | some g => g.ppm

/-- Function `_summarize` (`src/server.py` lines 215–238). -/
def _summarize (last : LatestState) : Summary :=
  let pred := extract_top_detection last.vision
  let g := summaryPpm last
  let co2_hi := co2Hi g.co2
  let nh3_hi := nh3Hi g.nh3
  let voc_hi := vocHi g.benzene g.alcohol
  let spoiled := rottenOf pred || co2_hi || nh3_hi || voc_hi
  { vision := pred
    gas_ppm := ⟨g.co2, g.nh3, g.benzene, g.alcohol⟩
    gas_flags := ⟨co2_hi, nh3_hi, voc_hi⟩
    decision := if spoiled then "SPOILED" else "FRESH" }

-- ------------------ Spec-side predicates ------------------

/-- The spoilage condition as the specification phrases it: the extracted
vision label case-insensitively contains `"rotten"`, or co2 is present and
`≥ 2000`, or nh3 is present and `≥ 15`, or benzene (absent defaulting to `0`)
is `≥ 5`, or alcohol (absent defaulting to `0`) is `≥ 10`. -/
def spoiledSpec (last : LatestState) : Prop :=
  (∃ d, extract_top_detection last.vision = some d ∧
    ∃ p q, lowerList d.label.toList = p ++ "rotten".toList ++ q)
  ∨ (∃ v, (summaryPpm last).co2 = some v ∧ 2000 ≤ v)
  ∨ (∃ v, (summaryPpm last).nh3 = some v ∧ 15 ≤ v)
  ∨ 5 ≤ ((summaryPpm last).benzene).getD 0
  ∨ 10 ≤ ((summaryPpm last).alcohol).getD 0

/-- Appending a batch of `(timestamp, ppm)` readings to a store in order. -/
def appendAll (store : List Row) (entries : List (ℤ × Ppm)) : List Row :=
  entries.foldl (fun s e => save_reading s e.1 e.2) store

/-- The row that appending `(timestamp, ppm)` produces. -/
def rowOf (e : ℤ × Ppm) : Row := ⟨e.1, e.2.co2, e.2.nh3, e.2.benzene, e.2.alcohol⟩

-- ------------------ Concrete inputs used in witnesses/counterexamples ------

/-- An arbitrary stand-in for the abstracted float power `**`;
the statements instantiated with it do not depend on its values. -/
def powAny : ℚ → ℚ → ℚ := fun r _ => r

/-- A gas request with every field absent (no `vrl`, no `adc`, no `rs`). -/
def gEmpty : GasReading := ⟨none, none, none, none, none, none, none⟩

/-- A gas request supplying only an explicit sensor resistance of `0`. -/
def gRs0 : GasReading := ⟨none, none, none, none, none, some 0, none⟩

/-- A gas request supplying only an explicit sensor resistance of `1`. -/
def gRs1 : GasReading := ⟨none, none, none, none, none, some 1, none⟩

/-- A server state with the initial cache and an empty store. -/
def st0 : ServerState := ⟨LAST, []⟩

/-- A detector response with three predictions (confidences 0.3, 0.9, 0.5). -/
def respW : DetectorResponse :=
  ⟨some [⟨some "a", some (3/10)⟩, ⟨some "b", some (9/10)⟩, ⟨some "c", some (5/10)⟩]⟩

/-- A detector response whose single prediction has confidence `2.0`,
outside the nominal `[0, 1]` fraction range. -/
def respBad : DetectorResponse := ⟨some [⟨some "x", some 2⟩]⟩

/-- A detector response whose single prediction has confidence `0.5`. -/
def respHalf : DetectorResponse := ⟨some [⟨some "a", some (1/2)⟩]⟩

/-- Two history rows sharing one timestamp. -/
def rowA : Row := ⟨0, some 1, none, none, none⟩

/-- Second row with the same timestamp as `rowA`. -/
def rowB : Row := ⟨0, some 2, none, none, none⟩

/-- A store holding two rows with equal timestamps. -/
def storeDup : List Row := [rowA, rowB]

/-- Two readings with distinct increasing timestamps. -/
def entriesW : List (ℤ × Ppm) :=
  [(0, ⟨some 1, none, none, none⟩), (1, ⟨some 2, none, none, none⟩)]

-- ------------------ Rounding lemmas ------------------

theorem roundHalfEven_nonneg {x : ℚ} (hx : 0 ≤ x) : 0 ≤ roundHalfEven x := by
  unfold roundHalfEven
  have h0 : (0 : ℤ) ≤ Int.floor x := Int.floor_nonneg.mpr hx
  split_ifs <;> omega

theorem roundHalfEven_le {x : ℚ} {m : ℤ} (h : x ≤ (m : ℚ)) : roundHalfEven x ≤ m := by
  have h1 : Int.floor x ≤ m := by
    have := Int.floor_le_floor h
    simpa using this
  have hkey : ∀ hfr : ¬ x - (Int.floor x : ℚ) < 1/2, Int.floor x + 1 ≤ m := by
    intro hfr
    push_neg at hfr
    rcases lt_or_eq_of_le h1 with hlt | heq
    · omega
    · exfalso
      rw [heq] at hfr
      linarith
  unfold roundHalfEven
  split_ifs with hf hg he
  · exact h1
  · exact hkey hf
  · exact h1
  · exact hkey hf

theorem roundHalfEven_intCast (n : ℤ) : roundHalfEven (n : ℚ) = n := by
  unfold roundHalfEven
  norm_num

theorem pyround_nonneg {x : ℚ} (hx : 0 ≤ x) (d : ℕ) : 0 ≤ pyround x d := by
  unfold pyround
  apply div_nonneg
  · exact_mod_cast roundHalfEven_nonneg (by positivity)
  · positivity

theorem pyround_le {x : ℚ} {m : ℤ} (d : ℕ) (h : x ≤ (m : ℚ)) :
    pyround x d ≤ (m : ℚ) := by
  unfold pyround
  rw [div_le_iff₀ (by positivity)]
  have hx : x * 10 ^ d ≤ ((m * 10 ^ d : ℤ) : ℚ) := by
    push_cast
    exact mul_le_mul_of_nonneg_right h (by positivity)
  calc ((roundHalfEven (x * 10 ^ d) : ℤ) : ℚ)
      ≤ ((m * 10 ^ d : ℤ) : ℚ) := by exact_mod_cast roundHalfEven_le hx
    _ = (m : ℚ) * 10 ^ d := by push_cast; ring

theorem pyround_eq (x : ℚ) (d : ℕ) (n : ℤ) (h : x * 10 ^ d = (n : ℚ)) :
    pyround x d = (n : ℚ) / 10 ^ d := by
  rw [pyround, h, roundHalfEven_intCast]

-- ------------------ Gas computation lemmas ------------------

theorem ppm_from_ratio_nonneg (pw : ℚ → ℚ → ℚ) (ratio a b : ℚ) :
    0 ≤ _ppm_from_ratio pw ratio a b := by
  unfold _ppm_from_ratio
  split_ifs
  · exact le_refl 0
  · exact le_max_left 0 _

/-- Rewriting `gasCompute` in terms of the resistance it resolves: exactly the three
branches of the handler. -/
theorem gasCompute_eq_rsUsed (pw : ℚ → ℚ → ℚ) (g : GasReading) :
    gasCompute pw g =
      match rsUsed g with
      | some r => .ok (mkGasData pw (vrlResolved g) r g.r0)
      | none => .error "Send at least one of: vrl, adc, or rs." := by
  unfold gasCompute rsUsed
  cases hrs : g.rs with
  | some r => rfl
  | none =>
    cases hv : vrlResolved g with
    | some v => rfl
    | none => rfl

theorem gasCompute_ok_shape (pw : ℚ → ℚ → ℚ) (g : GasReading) (d : GasData)
    (h : gasCompute pw g = .ok d) :
    ∃ r, rsUsed g = some r ∧ d = mkGasData pw (vrlResolved g) r g.r0 := by
  rw [gasCompute_eq_rsUsed] at h
  cases hr : rsUsed g with
  | some r =>
    rw [hr] at h
    exact ⟨r, rfl, (Except.ok.inj h).symm⟩
  | none =>
    rw [hr] at h
    exact absurd h (by simp)

/-- C2: for every ratio and every `(a, b)` in the fixed gas-curve table the
computed ppm is `≥ 0` and is exactly `0` whenever `ratio ≤ 0`; consequently
every concentration value of a calibrated reading produced by the `/gas`
computation is non-negative.  Holds for every value of the abstracted power. -/
theorem ppm_nonneg_spec (pw : ℚ → ℚ → ℚ) (ratio : ℚ) :
    (∀ ab ∈ gasCurves, 0 ≤ _ppm_from_ratio pw ratio ab.1 ab.2
      ∧ (ratio ≤ 0 → _ppm_from_ratio pw ratio ab.1 ab.2 = 0))
    ∧ (∀ (g : GasReading) (d : GasData) (v : ℚ), gasCompute pw g = .ok d →
        (d.ppm.co2 = some v ∨ d.ppm.nh3 = some v ∨
          d.ppm.benzene = some v ∨ d.ppm.alcohol = some v) → 0 ≤ v) := by
  constructor
  · intro ab _
    refine ⟨ppm_from_ratio_nonneg pw ratio ab.1 ab.2, fun hr => ?_⟩
    unfold _ppm_from_ratio
    rw [if_pos hr]
  · intro g d v hok hv
    obtain ⟨r, -, rfl⟩ := gasCompute_ok_shape pw g d hok
    have hfields :
        (mkGasData pw (vrlResolved g) r g.r0).ppm = mkPpm pw (ratioVal r (g.r0.getD r)) := rfl
    rw [hfields] at hv
    rcases hv with h | h | h | h <;>
      · rw [show mkPpm pw (ratioVal r (g.r0.getD r)) = mkPpm pw (ratioVal r (g.r0.getD r)) from rfl] at h
        simp only [mkPpm, Option.some.injEq] at h
        rw [← h]
        exact pyround_nonneg (ppm_from_ratio_nonneg pw _ _ _) 1

/-- C2 witness: the first curve of the table at ratio `-1`. -/
theorem ppm_nonneg_spec_witness :
    0 ≤ _ppm_from_ratio powAny (-1) 116.6021 (-2.7690)
    ∧ _ppm_from_ratio powAny (-1) 116.6021 (-2.7690) = 0 := by
  have h := (ppm_nonneg_spec powAny (-1)).1 (116.6021, -2.7690) (by simp [gasCurves])
  exact ⟨h.1, h.2 (by norm_num)⟩

/-- C3: the three divisors of the gas-ingestion path can never be zero: the
ADC divisor `int(g.adc_max or 4095)` is never `0`, the sensor-resistance
divisor is floored at `0.001`, and the baseline divisor of the ratio is
floored at `1e-6`; there is no other division in the path (`ratio ** b` is
only evaluated for `ratio > 0`, see `_ppm_from_ratio`). -/
theorem gas_division_guards (g : GasReading) (v r0 : ℚ) :
    effAdcMax g ≠ 0
    ∧ (1/1000 : ℚ) ≤ rsDenom v ∧ 0 < rsDenom v
    ∧ (1/1000000 : ℚ) ≤ ratioDenom r0 ∧ 0 < ratioDenom r0 := by
  have h1 : (1/1000 : ℚ) ≤ rsDenom v := le_max_left _ _
  have h2 : (1/1000000 : ℚ) ≤ ratioDenom r0 := le_max_left _ _
  refine ⟨?_, h1, lt_of_lt_of_le (by norm_num) h1, h2, lt_of_lt_of_le (by norm_num) h2⟩
  unfold effAdcMax pyOrZ
  cases g.adc_max with
  | none => norm_num
  | some a =>
    dsimp only
    split_ifs with ha
    · norm_num
    · exact ha

/-- C3 witness: the guards at an all-defaults request and zero inputs. -/
theorem gas_division_guards_witness :
    effAdcMax gEmpty ≠ 0
    ∧ (1/1000 : ℚ) ≤ rsDenom 0 ∧ 0 < rsDenom 0
    ∧ (1/1000000 : ℚ) ≤ ratioDenom 0 ∧ 0 < ratioDenom 0 :=
  gas_division_guards gEmpty 0 0

/-- C4: when `vrl`, `adc` and `rs` are all absent the `/gas` endpoint returns
the structured `InvalidInput` error and leaves the cache and the store
untouched. -/
theorem gas_invalid_input_preserves_state (pw : ℚ → ℚ → ℚ) (st : ServerState)
    (now : ℤ) (g : GasReading) (h1 : g.vrl = none) (h2 : g.adc = none)
    (h3 : g.rs = none) :
    (gasEndpoint pw st now g).1 = st
    ∧ (gasEndpoint pw st now g).2 = .error "Send at least one of: vrl, adc, or rs." := by
  have hv : vrlResolved g = none := by
    unfold vrlResolved
    rw [h1, h2]
  have hc : gasCompute pw g = .error "Send at least one of: vrl, adc, or rs." := by
    unfold gasCompute
    rw [h3, hv]
  constructor <;> simp [gasEndpoint, hc]

/-- C4 witness: the empty request against the initial server state. -/
theorem gas_invalid_input_preserves_state_witness :
    (gasEndpoint powAny st0 0 gEmpty).1 = st0
    ∧ (gasEndpoint powAny st0 0 gEmpty).2 = .error "Send at least one of: vrl, adc, or rs." :=
  gas_invalid_input_preserves_state powAny st0 0 gEmpty rfl rfl rfl

/-- C10: summarizing the initial empty `LAST` cache yields an absent vision,
an all-absent ppm mapping, three `false` flags and the decision `"FRESH"`. -/
theorem summarize_initial_state :
    (_summarize LAST).vision = none
    ∧ (_summarize LAST).gas_ppm = ⟨none, none, none, none⟩
    ∧ (_summarize LAST).gas_flags = ⟨false, false, false⟩
    ∧ (_summarize LAST).decision = "FRESH" :=
  ⟨rfl, rfl, rfl, rfl⟩

-- ------------------ Substring and fusion lemmas ------------------

theorem isPrefixOf_eq_true (n h : List Char) :
    n.isPrefixOf h = true ↔ ∃ t, n ++ t = h := by
  induction n generalizing h with
  | nil => simp [List.isPrefixOf]
  | cons a as ih =>
    cases h with
    | nil => simp [List.isPrefixOf]
    | cons b bs =>
      simp only [List.isPrefixOf, Bool.and_eq_true, beq_iff_eq, ih, List.cons_append,
        List.cons.injEq]
      constructor
      · rintro ⟨rfl, t, rfl⟩
        exact ⟨t, rfl, rfl⟩
      · rintro ⟨t, rfl, rfl⟩
        exact ⟨rfl, t, rfl⟩

theorem containsSubstring_iff (n h : List Char) :
    containsSubstring n h = true ↔ ∃ p q, h = p ++ n ++ q := by
  induction h with
  | nil =>
    simp only [containsSubstring, List.isEmpty_iff]
    constructor
    · rintro rfl
      exact ⟨[], [], rfl⟩
    · rintro ⟨p, q, hpq⟩
      have := hpq.symm
      simp only [List.append_eq_nil] at this
      exact this.1.2
  | cons c t ih =>
    simp only [containsSubstring, Bool.or_eq_true, ih, isPrefixOf_eq_true]
    constructor
    · rintro (⟨q, hq⟩ | ⟨p, q, rfl⟩)
      · exact ⟨[], q, by simp [hq]⟩
      · exact ⟨c :: p, q, by simp⟩
    · rintro ⟨p, q, hpq⟩
      cases p with
      | nil =>
        left
        exact ⟨q, by simpa using hpq.symm⟩
      | cons x xs =>
        right
        simp only [List.cons_append, List.cons.injEq] at hpq
        exact ⟨xs, q, hpq.2⟩

theorem pyOrQ_zero_default (o : Option ℚ) : pyOrQ o 0 = o.getD 0 := by
  cases o with
  | none => rfl
  | some v =>
    simp only [pyOrQ, Option.getD_some]
    split_ifs with h
    · exact h.symm
    · rfl

theorem co2Hi_eq_true_iff (o : Option ℚ) :
    co2Hi o = true ↔ ∃ v, o = some v ∧ 2000 ≤ v := by
  cases o <;> simp [co2Hi]

theorem nh3Hi_eq_true_iff (o : Option ℚ) :
    nh3Hi o = true ↔ ∃ v, o = some v ∧ 15 ≤ v := by
  cases o <;> simp [nh3Hi]

theorem vocHi_eq_true_iff (b a : Option ℚ) :
    vocHi b a = true ↔ 5 ≤ b.getD 0 ∨ 10 ≤ a.getD 0 := by
  simp [vocHi, pyOrQ_zero_default]

theorem rottenOf_eq_true_iff (pred : Option DetectionOut) :
    rottenOf pred = true ↔
      ∃ d, pred = some d ∧ ∃ p q, lowerList d.label.toList = p ++ "rotten".toList ++ q := by
  cases pred with
  | none => simp [rottenOf]
  | some d => simp [rottenOf, containsSubstring_iff]

theorem spoiledBool_iff (last : LatestState) :
    (rottenOf (extract_top_detection last.vision)
      || co2Hi (summaryPpm last).co2
      || nh3Hi (summaryPpm last).nh3
      || vocHi (summaryPpm last).benzene (summaryPpm last).alcohol) = true
    ↔ spoiledSpec last := by
  simp only [Bool.or_eq_true, rottenOf_eq_true_iff, co2Hi_eq_true_iff,
    nh3Hi_eq_true_iff, vocHi_eq_true_iff, spoiledSpec, or_assoc]

theorem decision_of_bool (b : Bool) (P : Prop) (h : b = true ↔ P) :
    (((if b then "SPOILED" else "FRESH") : String) = "SPOILED" ↔ P)
    ∧ (((if b then "SPOILED" else "FRESH") : String) = "FRESH" ↔ ¬ P) := by
  have hne : ("FRESH" : String) ≠ "SPOILED" := by decide
  cases b with
  | false =>
    have hp : ¬ P := fun hpp => Bool.false_ne_true (h.mpr hpp)
    rw [show (if (false : Bool) then ("SPOILED" : String) else "FRESH") = "FRESH" from rfl]
    exact ⟨⟨fun hc => absurd hc hne, fun hpp => absurd hpp hp⟩,
      ⟨fun _ => hp, fun _ => rfl⟩⟩
  | true =>
    have hp : P := h.mp rfl
    rw [show (if (true : Bool) then ("SPOILED" : String) else "FRESH") = "SPOILED" from rfl]
    exact ⟨⟨fun _ => hp, fun _ => rfl⟩,
      ⟨fun hc => absurd hc.symm hne, fun hn => absurd hp hn⟩⟩

/-- C1: `_summarize` decides `"SPOILED"` exactly when the vision label
case-insensitively contains `"rotten"`, or co2 is present and `≥ 2000`, or
nh3 is present and `≥ 15`, or benzene (absent ⇒ 0) is `≥ 5`, or alcohol
(absent ⇒ 0) is `≥ 10` — and `"FRESH"` otherwise. -/
theorem summarize_decision_iff (last : LatestState) :
    ((_summarize last).decision = "SPOILED" ↔ spoiledSpec last)
    ∧ ((_summarize last).decision = "FRESH" ↔ ¬ spoiledSpec last) := by
  have hd : (_summarize last).decision =
      (if (rottenOf (extract_top_detection last.vision)
        || co2Hi (summaryPpm last).co2
        || nh3Hi (summaryPpm last).nh3
        || vocHi (summaryPpm last).benzene (summaryPpm last).alcohol)
        then "SPOILED" else "FRESH") := rfl
  rw [hd]
  exact decision_of_bool _ _ (spoiledBool_iff last)

/-- C1 witness: the characterization applied to the initial state. -/
theorem summarize_decision_iff_witness :
    (_summarize LAST).decision = "FRESH" ↔ ¬ spoiledSpec LAST :=
  (summarize_decision_iff LAST).2

-- ------------------ Stable-max lemmas (extract_top_detection) -------------

/-- Python's `max(..., key=f)` returns the first element attaining the
maximum key: the scanned list splits around the result, everything strictly
before it has a strictly smaller key, and nothing exceeds it. -/
theorem pymaxBy_spec (f : Prediction → ℚ) (p : Prediction) (ps : List Prediction) :
    ∃ l₁ l₂, p :: ps = l₁ ++ pymaxBy f p ps :: l₂
      ∧ (∀ q ∈ l₁, f q < f (pymaxBy f p ps))
      ∧ (∀ q ∈ p :: ps, f q ≤ f (pymaxBy f p ps)) := by
  induction ps generalizing p with
  | nil =>
    refine ⟨[], [], rfl, by simp, ?_⟩
    intro q hq
    rcases List.mem_singleton.mp hq with rfl
    exact le_refl _
  | cons q rest ih =>
    simp only [pymaxBy]
    by_cases hq : f p < f q
    · rw [if_pos hq]
      obtain ⟨l₁, l₂, hdec, hstrict, hle⟩ := ih q
      have hqtop : f q ≤ f (pymaxBy f q rest) := hle q (List.mem_cons_self q rest)
      refine ⟨p :: l₁, l₂, ?_, ?_, ?_⟩
      · rw [List.cons_append, ← hdec]
      · intro x hx
        rcases List.mem_cons.mp hx with rfl | hx
        · exact lt_of_lt_of_le hq hqtop
        · exact hstrict x hx
      · intro x hx
        rcases List.mem_cons.mp hx with rfl | hx
        · exact le_of_lt (lt_of_lt_of_le hq hqtop)
        · exact hle x hx
    · rw [if_neg hq]
      have hqle : f q ≤ f p := le_of_not_lt hq
      obtain ⟨l₁, l₂, hdec, hstrict, hle⟩ := ih p
      have hptop : f p ≤ f (pymaxBy f p rest) := hle p (List.mem_cons_self p rest)
      cases l₁ with
      | nil =>
        simp only [List.nil_append] at hdec
        have hm : p = pymaxBy f p rest := (List.cons.injEq _ _ _ _ ▸ hdec).1
        refine ⟨[], q :: rest, ?_, by simp, ?_⟩
        · rw [List.nil_append, ← hm]
        · intro x hx
          rcases List.mem_cons.mp hx with rfl | hx
          · exact hptop
          rcases List.mem_cons.mp hx with rfl | hx2
          · exact le_trans hqle hptop
          · exact hle x (List.mem_cons_of_mem p hx2)
      | cons y ys =>
        simp only [List.cons_append, List.cons.injEq] at hdec
        obtain ⟨hpy, htail⟩ := hdec
        have hpstrict : f p < f (pymaxBy f p rest) := by
          rw [congrArg f hpy]
          exact hstrict y (List.mem_cons_self y ys)
        refine ⟨p :: q :: ys, l₂, ?_, ?_, ?_⟩
        · simp only [List.cons_append]
          rw [← htail]
        · intro x hx
          rcases List.mem_cons.mp hx with rfl | hx
          · exact hpstrict
          rcases List.mem_cons.mp hx with rfl | hx2
          · exact lt_of_le_of_lt hqle hpstrict
          · exact hstrict x (List.mem_cons_of_mem y hx2)
        · intro x hx
          rcases List.mem_cons.mp hx with rfl | hx
          · exact hptop
          rcases List.mem_cons.mp hx with rfl | hx2
          · exact le_trans hqle hptop
          · exact hle x (List.mem_cons_of_mem p hx2)

/-- C5: `extract_top_detection` returns absent for an absent payload, a
missing `predictions` key or an empty list; otherwise it returns the
first-occurring maximum-confidence prediction (absent confidence counting as
`0.0`), with the raw class string (default `"?"`) as label and the confidence
fraction `× 100` rounded to one decimal. -/
theorem extract_top_spec :
    extract_top_detection none = none
    ∧ (∀ r : DetectorResponse, r.predictions = none →
        extract_top_detection (some r) = none)
    ∧ (∀ r : DetectorResponse, r.predictions = some [] →
        extract_top_detection (some r) = none)
    ∧ (∀ (r : DetectorResponse) (p : Prediction) (ps : List Prediction),
        r.predictions = some (p :: ps) →
        ∃ top l₁ l₂,
          extract_top_detection (some r)
            = some ⟨top.cls.getD "?", pyround (confOf top * 100) 1⟩
          ∧ p :: ps = l₁ ++ top :: l₂
          ∧ (∀ q ∈ l₁, confOf q < confOf top)
          ∧ (∀ q ∈ p :: ps, confOf q ≤ confOf top)) := by
  refine ⟨rfl, ?_, ?_, ?_⟩
  · intro r h
    simp [extract_top_detection, h]
  · intro r h
    simp [extract_top_detection, h]
  · intro r p ps h
    obtain ⟨l₁, l₂, hdec, hstrict, hle⟩ := pymaxBy_spec confOf p ps
    exact ⟨pymaxBy confOf p ps, l₁, l₂, by simp [extract_top_detection, h],
      hdec, hstrict, hle⟩

/-- C5 witness: on confidences `0.3, 0.9, 0.5` the extraction picks the
second prediction and reports `90.0`. -/
theorem extract_top_spec_witness :
    extract_top_detection (some respW) = some ⟨"b", 90⟩
    ∧ ∃ top l₁ l₂,
        extract_top_detection (some respW)
          = some ⟨top.cls.getD "?", pyround (confOf top * 100) 1⟩
        ∧ (⟨some "a", some (3/10)⟩ : Prediction) ::
            [⟨some "b", some (9/10)⟩, ⟨some "c", some (5/10)⟩] = l₁ ++ top :: l₂
        ∧ (∀ q ∈ l₁, confOf q < confOf top)
        ∧ (∀ q ∈ (⟨some "a", some (3/10)⟩ : Prediction) ::
            [⟨some "b", some (9/10)⟩, ⟨some "c", some (5/10)⟩], confOf q ≤ confOf top) := by
  constructor
  · have h2 : pyround ((9 : ℚ)/10 * 100) 1 = 90 := by
      rw [pyround_eq _ _ 900 (by norm_num)]
      norm_num
    have h3 : pyround (90 : ℚ) 1 = 90 := by
      rw [pyround_eq _ _ 900 (by norm_num)]
      norm_num
    norm_num [respW, extract_top_detection, pymaxBy, confOf, h2, h3]
  · exact extract_top_spec.2.2.2 respW ⟨some "a", some (3/10)⟩
      [⟨some "b", some (9/10)⟩, ⟨some "c", some (5/10)⟩] rfl

-- ------------------ Confidence bounds (C7) ------------------

/-- The scan result is one of the scanned predictions. -/
theorem pymaxBy_mem (f : Prediction → ℚ) (p : Prediction) (ps : List Prediction) :
    pymaxBy f p ps ∈ p :: ps := by
  obtain ⟨l₁, l₂, hdec, -, -⟩ := pymaxBy_spec f p ps
  rw [hdec]
  exact List.mem_append_right l₁ (List.mem_cons_self _ _)

/-- C7 (amended): whenever every prediction of the payload carries a
confidence fraction within `[0, 1]` — as the external detector produces —
the extracted `confidence_percent` lies within `[0, 100]`.  (The code itself
never clamps: an out-of-range input fraction scales past 100, see
`confidence_bounds_cex`.) -/
theorem confidence_bounds (r : DetectorResponse) (d : DetectionOut)
    (hconf : ∀ p ∈ r.predictions.getD [], 0 ≤ confOf p ∧ confOf p ≤ 1)
    (h : extract_top_detection (some r) = some d) :
    0 ≤ d.confidence ∧ d.confidence ≤ 100 := by
  rcases hp : r.predictions with - | ps
  · rw [show extract_top_detection (some r) = none by
      simp [extract_top_detection, hp]] at h
    exact absurd h (by simp)
  cases ps with
  | nil =>
    rw [show extract_top_detection (some r) = none by
      simp [extract_top_detection, hp]] at h
    exact absurd h (by simp)
  | cons p rest =>
    have hx : extract_top_detection (some r)
        = some ⟨(pymaxBy confOf p rest).cls.getD "?",
            pyround (confOf (pymaxBy confOf p rest) * 100) 1⟩ := by
      simp [extract_top_detection, hp]
    rw [hx] at h
    have hd : d = ⟨(pymaxBy confOf p rest).cls.getD "?",
        pyround (confOf (pymaxBy confOf p rest) * 100) 1⟩ := (Option.some.inj h).symm
    have hb : 0 ≤ confOf (pymaxBy confOf p rest)
        ∧ confOf (pymaxBy confOf p rest) ≤ 1 := by
      apply hconf
      rw [hp, Option.getD_some]
      exact pymaxBy_mem confOf p rest
    rw [hd]
    constructor
    · exact pyround_nonneg (by nlinarith [hb.1]) 1
    · have h100 : confOf (pymaxBy confOf p rest) * 100 ≤ ((100 : ℤ) : ℚ) := by
        push_cast
        nlinarith [hb.2]
      have := pyround_le 1 h100
      exact_mod_cast this

/-- C7 counterexample: a payload whose single prediction has confidence
`2.0` yields `confidence_percent = 200`, outside `[0, 100]` — so the bound
does not hold for arbitrary payloads. -/
theorem confidence_bounds_cex :
    extract_top_detection (some respBad) = some ⟨"x", 200⟩
    ∧ ¬ (∀ (r : DetectorResponse) (d : DetectionOut),
          extract_top_detection (some r) = some d →
          0 ≤ d.confidence ∧ d.confidence ≤ 100) := by
  have h1 : extract_top_detection (some respBad) = some ⟨"x", 200⟩ := by
    have h2 : pyround ((2 : ℚ) * 100) 1 = 200 := by
      rw [pyround_eq _ _ 2000 (by norm_num)]
      norm_num
    have h3 : pyround (200 : ℚ) 1 = 200 := by
      rw [pyround_eq _ _ 2000 (by norm_num)]
      norm_num
    norm_num [respBad, extract_top_detection, pymaxBy, confOf, h2, h3]
  refine ⟨h1, fun hall => ?_⟩
  have h4 := (hall respBad ⟨"x", 200⟩ h1).2
  norm_num at h4

/-- C7 witness: a single half-confidence prediction maps to `50.0 ∈ [0, 100]`. -/
theorem confidence_bounds_witness :
    0 ≤ (DetectionOut.mk "a" 50).confidence
    ∧ (DetectionOut.mk "a" 50).confidence ≤ 100 := by
  have hx : extract_top_detection (some respHalf) = some ⟨"a", 50⟩ := by
    have h2 : pyround ((1 : ℚ)/2 * 100) 1 = 50 := by
      rw [pyround_eq _ _ 500 (by norm_num)]
      norm_num
    have h3 : pyround (50 : ℚ) 1 = 50 := by
      rw [pyround_eq _ _ 500 (by norm_num)]
      norm_num
    norm_num [respHalf, extract_top_detection, pymaxBy, confOf, h2, h3]
  refine confidence_bounds respHalf ⟨"a", 50⟩ ?_ hx
  intro p hp
  have : p = ⟨some "a", some (1/2)⟩ := by
    simpa [respHalf] using hp
  rw [this]
  norm_num [confOf]

-- ------------------ Baseline default and ratio (C6) ------------------

/-- C6 counterexample: a request supplying only `rs = 0` (and no `r0`) is
accepted, but its computed ratio is `0 / max(1e-6, 0) = 0`, not `1.0` — the
"unset baseline ⇒ ratio 1" reading fails once the resistance drops below the
`1e-6` floor. -/
theorem ratio_default_cex :
    gasCompute powAny gRs0 = .ok (mkGasData powAny none 0 none)
    ∧ (mkGasData powAny none 0 none).ratio = 0
    ∧ ¬ (∀ (pw : ℚ → ℚ → ℚ) (g : GasReading) (d : GasData),
          g.r0 = none → gasCompute pw g = .ok d → d.ratio = 1) := by
  have h1 : gasCompute powAny gRs0 = .ok (mkGasData powAny none 0 none) := rfl
  have h2 : (mkGasData powAny none 0 none).ratio = 0 := by
    have hr : ratioVal 0 ((none : Option ℚ).getD 0) = 0 := by
      simp [ratioVal]
    show pyround (ratioVal 0 ((none : Option ℚ).getD 0)) 3 = 0
    rw [hr, pyround_eq _ _ 0 (by norm_num)]
    norm_num
  refine ⟨h1, h2, fun hall => ?_⟩
  have h3 := hall powAny gRs0 (mkGasData powAny none 0 none) rfl h1
  rw [h2] at h3
  norm_num at h3

/-- C6 (amended): with no baseline supplied and the resolved sensor
resistance at least the `1e-6` floor, the computed ratio is exactly `1.0`
(below the floor the ratio is `rs / 1e-6` instead, see `ratio_default_cex`). -/
theorem ratio_default_amended (pw : ℚ → ℚ → ℚ) (g : GasReading) (r : ℚ)
    (h0 : g.r0 = none) (hr : rsUsed g = some r) (hge : (1/1000000 : ℚ) ≤ r) :
    ∃ d, gasCompute pw g = .ok d ∧ d.ratio = 1 := by
  have hcomp : gasCompute pw g = .ok (mkGasData pw (vrlResolved g) r g.r0) := by
    rw [gasCompute_eq_rsUsed, hr]
  refine ⟨mkGasData pw (vrlResolved g) r g.r0, hcomp, ?_⟩
  have hval : ratioVal r ((g.r0).getD r) = 1 := by
    rw [h0, Option.getD_none]
    unfold ratioVal ratioDenom
    rw [max_eq_right hge]
    exact div_self (by positivity)
  show pyround (ratioVal r ((g.r0).getD r)) 3 = 1
  rw [hval, pyround_eq _ _ 1000 (by norm_num)]
  norm_num

/-- C6 witness: `rs = 1` with no baseline gives ratio `1.0`. -/
theorem ratio_default_witness :
    ∃ d, gasCompute powAny gRs1 = .ok d ∧ d.ratio = 1 :=
  ratio_default_amended powAny gRs1 1 rfl rfl (by norm_num)

-- ------------------ History store (C8, C9) ------------------

theorem appendAll_eq (entries : List (ℤ × Ppm)) (init : List Row) :
    appendAll init entries = init ++ entries.map rowOf := by
  induction entries generalizing init with
  | nil => simp [appendAll]
  | cons e t ih =>
    show appendAll (init ++ [rowOf e]) t = _
    rw [ih]
    simp

/-- C8: appending `N` readings with non-decreasing timestamps to an empty
store, then querying with a cutoff covering all of them, returns exactly the
`N` inserted records in insertion order. -/
theorem roundtrip_append_query (entries : List (ℤ × Ppm)) (cutoff : ℤ)
    (hmono : List.Sorted (fun a b : ℤ × Ppm => a.1 ≤ b.1) entries)
    (hcov : ∀ e ∈ entries, cutoff ≤ e.1) :
    load_history_since (appendAll [] entries) cutoff = entries.map rowOf
    ∧ (load_history_since (appendAll [] entries) cutoff).length = entries.length := by
  have happ : appendAll [] entries = entries.map rowOf := by
    simpa using appendAll_eq entries []
  have hfilter : (entries.map rowOf).filter (fun row => decide (cutoff ≤ row.ts))
      = entries.map rowOf := by
    rw [List.filter_eq_self]
    intro row hrow
    obtain ⟨e, he, rfl⟩ := List.mem_map.mp hrow
    simpa [rowOf] using hcov e he
  have hsorted : List.Sorted tsle (entries.map rowOf) :=
    hmono.map rowOf (fun _ _ h => h)
  have hload : load_history_since (appendAll [] entries) cutoff
      = entries.map rowOf := by
    unfold load_history_since
    rw [happ, hfilter]
    exact List.Sorted.insertionSort_eq hsorted
  exact ⟨hload, by rw [hload, List.length_map]⟩

/-- C8 witness: two readings at timestamps `0` and `1`, window cutoff `0`. -/
theorem roundtrip_append_query_witness :
    load_history_since (appendAll [] entriesW) 0 = entriesW.map rowOf
    ∧ (load_history_since (appendAll [] entriesW) 0).length = entriesW.length := by
  refine roundtrip_append_query entriesW 0 ?_ ?_
  · simp [entriesW, List.sorted_cons]
  · intro e he
    rcases List.mem_cons.mp he with rfl | he2
    · norm_num
    rcases List.mem_cons.mp he2 with rfl | he3
    · norm_num
    · exact absurd he3 (List.not_mem_nil e)

/-- C9 (amended): the `days = 2` history query returns exactly the records
whose timestamp is `≥ now − 2 days` (as a permutation of the filtered store)
in ascending — non-decreasing, not strict — timestamp order. -/
theorem history_window_sorted (store : List Row) (now : ℤ) :
    List.Perm (load_history_last_days store now 2)
      (store.filter (fun row => decide (now - 2 * oneDay ≤ row.ts)))
    ∧ List.Sorted tsle (load_history_last_days store now 2) := by
  unfold load_history_last_days load_history_since
  exact ⟨List.perm_insertionSort tsle _, List.sorted_insertionSort tsle _⟩

/-- C9 counterexample: two records sharing one timestamp are both inside the
window, so the returned sequence is not *strictly* ascending. -/
theorem history_strict_cex :
    ¬ (∀ (store : List Row) (now : ℤ),
        List.Perm (load_history_last_days store now 2)
          (store.filter (fun row => decide (now - 2 * oneDay ≤ row.ts)))
        ∧ List.Pairwise (fun a b : Row => a.ts < b.ts)
            (load_history_last_days store now 2)) := by
  intro hall
  have h := (hall storeDup 0).2
  have heq : load_history_last_days storeDup 0 2 = [rowA, rowB] := by
    show List.insertionSort tsle
        (List.filter (fun row => decide (0 - 2 * oneDay ≤ row.ts)) [rowA, rowB])
        = [rowA, rowB]
    rw [show List.filter (fun row => decide (0 - 2 * oneDay ≤ row.ts)) [rowA, rowB]
        = [rowA, rowB] from by norm_num [rowA, rowB, oneDay]]
    apply List.Sorted.insertionSort_eq
    simp [List.sorted_cons, tsle, rowA, rowB]
  rw [heq] at h
  have h2 := (List.pairwise_cons.mp h).1 rowB (List.mem_cons_self _ _)
  simp [rowA, rowB] at h2

end Server
